import Mathlib

/-!
Verification of the memcache socket client (`src/adapter/socket/memcache.js`).

The source works over a JS string receive buffer; we embed buffers as `List Char`.
JS numbers that can become `NaN` (via `parseInt` on an unparseable byte-length
field) are embedded as `JNum`; all other arithmetic in the source is integer
arithmetic and is embedded as `Int`/`Nat`.
-/

set_option maxRecDepth 20000
set_option synthInstance.maxSize 512

namespace Memcache

/-- Byte buffers: the source operates on JS strings. -/
abbrev Buf := List Char

def toBuf (s : String) : Buf := s.toList

/-- `CRLF` from the source: the line terminator. -/
def CRLF : Buf := toBuf "\r\n"

/-- `CRLF_LENGTH` from the source. -/
def CRLF_LENGTH : Nat := CRLF.length

/-- `ERRORS` from the source: the four error-line tokens. -/
def ERRORS : List Buf :=
  [toBuf "ERROR", toBuf "NOT_FOUND", toBuf "CLIENT_ERROR", toBuf "SERVER_ERROR"]

/-- First index at which `pat` occurs as a contiguous substring of `s`
(JS `String.indexOf`, with `none` standing for `-1`). -/
def firstIdx (s pat : Buf) : Option Nat :=
  if pat.isPrefixOf s then some 0
  else
    match s with
    | [] => none
    | _ :: rest => (firstIdx rest pat).map (· + 1)

/-- JS `indexOf`: `-1` when the pattern is absent. -/
def jsIndexOf (s pat : Buf) : Int :=
  match firstIdx s pat with
  | none => -1
  | some i => (i : Int)

/-- JS `substr(start, length)`: a negative start counts from the end (never hit at
the source's call sites), a non-positive length yields the empty string. -/
def jsSubstr (s : Buf) (start len : Int) : Buf :=
  let intStart : Int := if start < 0 then max ((s.length : Int) + start) 0 else start
  (s.drop intStart.toNat).take len.toNat

/-- JS `substr(start)` with the length argument `undefined`: to the end of the string. -/
def jsSubstrEnd (s : Buf) (start : Int) : Buf :=
  let intStart : Int := if start < 0 then max ((s.length : Int) + start) 0 else start
  s.drop intStart.toNat

/-- A JS number as it arises in the source: an integer, or `NaN` (produced by
`parseInt` when a get reply's header has no parseable byte-length field). -/
inductive JNum where
  | nan : JNum
  | num : Int → JNum
deriving DecidableEq, Repr

/-- NaN-propagating addition of an integer. -/
def jaddInt : JNum → Int → JNum
  | .nan, _ => .nan
  | .num a, b => .num (a + b)

/-- JS `>` against a plain number: false whenever the left side is `NaN`. -/
def JNum.gtNat : JNum → Nat → Bool
  | .nan, _ => false
  | .num a, n => decide ((n : Int) < a)

/-- JS `String.substring(start)`: `ToInteger` maps `NaN` to 0 and clamps negatives. -/
def jsSubstringFrom (s : Buf) (start : JNum) : Buf :=
  match start with
  | .nan => s
  | .num n => s.drop n.toNat

/-- JS whitespace characters relevant to number parsing. -/
def isJsWS (c : Char) : Bool :=
  c == ' ' || c == '\t' || c == '\n' || c == '\r' || c == '\x0b' || c == '\x0c'

def hexVal (c : Char) : Option Nat :=
  if '0' ≤ c ∧ c ≤ '9' then some (c.toNat - '0'.toNat)
  else if 'a' ≤ c ∧ c ≤ 'f' then some (c.toNat - 'a'.toNat + 10)
  else if 'A' ≤ c ∧ c ≤ 'F' then some (c.toNat - 'A'.toNat + 10)
  else none

def decVal (c : Char) : Option Nat :=
  if '0' ≤ c ∧ c ≤ '9' then some (c.toNat - '0'.toNat) else none

/-- Longest leading digit run under the digit-classifier `f`. -/
def takeDigits (f : Char → Option Nat) : Buf → List Nat
  | [] => []
  | c :: rest =>
    match f c with
    | some v => v :: takeDigits f rest
    | none => []

def digitsToNat (base : Nat) (ds : List Nat) : Nat :=
  ds.foldl (fun acc d => acc * base + d) 0

/-- JS `parseInt` with no radix argument: skip leading whitespace, optional sign,
`0x`/`0X` switches to hexadecimal, otherwise decimal; parses the longest digit run
and ignores trailing characters; `NaN` when no digit is found. -/
def parseIntJs (s : Buf) : JNum :=
  let t := s.dropWhile isJsWS
  let sign : Int := match t with | '-' :: _ => -1 | _ => 1
  let t2 : Buf := match t with | '-' :: r => r | '+' :: r => r | _ => t
  match t2 with
  | '0' :: c :: rest =>
    if c == 'x' || c == 'X' then
      match takeDigits hexVal rest with
      | [] => .nan
      | ds => .num (sign * (digitsToNat 16 ds : Int))
    else
      match takeDigits decVal t2 with
      | [] => .nan
      | ds => .num (sign * (digitsToNat 10 ds : Int))
  | _ =>
    match takeDigits decVal t2 with
    | [] => .nan
    | ds => .num (sign * (digitsToNat 10 ds : Int))

/-- JS `parseInt` applied to a possibly-undefined value: `parseInt(undefined)`
parses the string "undefined" and yields `NaN`. -/
def parseIntJsOpt : Option Buf → JNum
  | none => .nan
  | some f => parseIntJs f

/-- Decimal-digits-only string to number; `NaN` otherwise. -/
def allDecNum (t : Buf) : JNum :=
  if t ≠ [] ∧ t.all (fun d => (decVal d).isSome) then
    .num ((digitsToNat 10 (t.map (fun d => (decVal d).getD 0)) : Nat) : Int)
  else .nan

/-- JS `ToNumber` on a string, restricted to the integer literals that can occur in
a reply header's byte-length field: whitespace-trimmed; the empty string is 0; an
optional sign followed by decimal digits, or an unsigned `0x` hex literal.
Fractional/exponent forms denote non-integers, never arise from the protocol, and
are mapped to `NaN` here. -/
def toNumberJs (s : Buf) : JNum :=
  let t := ((s.dropWhile isJsWS).reverse.dropWhile isJsWS).reverse
  if t = [] then .num 0
  else
    match t with
    | '0' :: c :: rest =>
      if c == 'x' || c == 'X' then
        if rest ≠ [] ∧ rest.all (fun d => (hexVal d).isSome) then
          .num ((digitsToNat 16 (rest.map (fun d => (hexVal d).getD 0)) : Nat) : Int)
        else .nan
      else allDecNum t
    | '-' :: rest =>
      match allDecNum rest with
      | .nan => .nan
      | .num n => .num (-n)
    | '+' :: rest => allDecNum rest
    | _ => allDecNum t

/-- JS `ToInteger` as used by `substr` on its length argument: `NaN` becomes 0. -/
def jsToInt : JNum → Int
  | .nan => 0
  | .num n => n

def splitOnSpaceAux : Buf → Buf → List Buf
  | [], acc => [acc.reverse]
  | c :: rest, acc =>
    if c == ' ' then acc.reverse :: splitOnSpaceAux rest []
    else splitOnSpaceAux rest (c :: acc)

/-- JS `split(' ')` (single-character separator, keeps empty fields). -/
def splitOnSpace (s : Buf) : List Buf := splitOnSpaceAux s []

/-- `readLine` from the source. -/
def readLine (s : Buf) : Buf :=
  match firstIdx s CRLF with
  | some pos => jsSubstr s 0 (pos : Int)
  | none => s

/-- The reply shapes used by the source's `query` callers ('get', 'simple',
'version').  The source dispatches on the string via `this['handle' + ucfirst]`;
the set of types reaching it is this closed enumeration. -/
inductive QType where
  | get | simple | version
deriving DecidableEq, Repr

/-- A handler result `[value, pos, error]` as produced by the source's handlers;
JS `null`/`undefined` components are `none`. -/
structure HR where
  value : Option Buf
  pos : JNum
  error : Option Buf
deriving DecidableEq, Repr

/-- `handleError` from the source. -/
def handleError (buffer : Buf) : HR :=
  let line := readLine buffer
  ⟨none, .num ((line.length : Int) + (CRLF_LENGTH : Int)), some line⟩

/-- `handleSimple` from the source. -/
def handleSimple (buffer : Buf) : HR :=
  let line := readLine buffer
  ⟨some line, .num ((line.length : Int) + (CRLF_LENGTH : Int)), none⟩

/-- `handleVersion` from the source (8 is the length of "VERSION "). -/
def handleVersion (buffer : Buf) : HR :=
  let pos : Int := jsIndexOf buffer CRLF
  let value := jsSubstr buffer 8 (pos - 8)
  ⟨some value, .num (pos + (CRLF_LENGTH : Int)), none⟩

/-- `handleGet` from the source.  In the middle branch `parseInt(resultLen, 10)` is
applied to the integer `resultLen` itself (stringify-then-parse is the identity on
integers, so it is inlined); in the last branch `resultLen` is the string — or JS
`undefined`, i.e. `none` — at index 3 of the space-split first line, so the
returned position is `NaN`-propagating.  The source's local `end` (= 3) is named
`endV` here. -/
def handleGet (buffer : Buf) : HR :=
  let endV : Int := 3
  if jsIndexOf buffer (toBuf "END") = 0 then
    ⟨none, .num (endV + (CRLF_LENGTH : Int)), none⟩
  else if jsIndexOf buffer (toBuf "VALUE") = 0 ∧ jsIndexOf buffer (toBuf "END") > -1 then
    let firstPos : Int := jsIndexOf buffer CRLF + (CRLF_LENGTH : Int)
    let endPos : Int := jsIndexOf buffer (toBuf "END")
    let resultLen : Int := endPos - firstPos - (CRLF_LENGTH : Int)
    let value := jsSubstr buffer firstPos resultLen
    ⟨some value, .num (firstPos + resultLen + (CRLF_LENGTH : Int) + endV + (CRLF_LENGTH : Int)), none⟩
  else
    let firstPos : Int := jsIndexOf buffer CRLF + (CRLF_LENGTH : Int)
    let resultLen : Option Buf := (splitOnSpace (jsSubstr buffer 0 firstPos)).get? 3
    let value : Buf :=
      match resultLen with
      | none => jsSubstrEnd buffer firstPos
      | some f => jsSubstr buffer firstPos (jsToInt (toNumberJs f))
    ⟨some value,
      jaddInt (parseIntJsOpt resultLen) (firstPos + (CRLF_LENGTH : Int) + endV + (CRLF_LENGTH : Int)),
      none⟩

/-- Shape dispatch (`this['handle' + ucfirst(type)]` over the closed enumeration). -/
def dispatchType : QType → Buf → HR
  | .get, b => handleGet b
  | .simple, b => handleSimple b
  | .version, b => handleVersion b

/-- `getHandleResult` from the source; `headType` is `this.callbacks[0].type`
(`none` when the queue is empty).  JS `false` is `none`.  The source checks the
four error tokens in order, but every match calls the same `handleError(buffer)`,
so an existence check is equivalent. -/
def getHandleResult (buffer : Buf) (headType : Option QType) : Option HR :=
  if jsIndexOf buffer CRLF = -1 then none
  else if ERRORS.any (fun item => decide (jsIndexOf buffer item > -1)) then
    some (handleError buffer)
  else
    match headType with
    | some t => some (dispatchType t buffer)
    | none => none

/-- A pending request in `this.callbacks`: its reply shape and an identifier for
its completion handle. -/
structure Request where
  rtype : QType
  rid : Nat
deriving DecidableEq, Repr

/-- A fired completion: (handle id, `error` argument, `value` argument). -/
abbrev Comp := Nat × Option Buf × Option Buf

/-- One run of the `handleData` while-loop, fuelled; `handleDataGo_stable` shows
`buffer.length + callbacks.length` iterations always suffice. -/
def handleDataGo : Nat → Buf → List Request → Buf × List Request × List Comp
  | 0, b, q => (b, q, [])
  | fuel + 1, b, q =>
    if b.length = 0 then (b, q, [])
    else
      match getHandleResult b (q.head?.map Request.rtype) with
      | none => (b, q, [])
      | some r =>
        if r.pos.gtNat b.length then (b, q, [])
        else
          let b' := jsSubstringFrom b r.pos
          match q with
          | [] =>
            let out := handleDataGo fuel b' []
            (out.1, out.2.1, out.2.2)
          | c :: rest =>
            let out := handleDataGo fuel b' rest
            (out.1, out.2.1, (c.rid, r.error, r.value) :: out.2.2)

/-- `handleData` from the source: the parse loop, run with sufficient fuel. -/
def handleData (b : Buf) (q : List Request) : Buf × List Request × List Comp :=
  handleDataGo (b.length + q.length) b q

/-- One `data` event per chunk: append to the receive buffer, run `handleData`. -/
def feedChunks : Buf → List Request → List Buf → Buf × List Request × List Comp
  | b, q, [] => (b, q, [])
  | b, q, c :: cs =>
    let s1 := handleData (b ++ c) q
    let s2 := feedChunks s1.1 s1.2.1 cs
    (s2.1, s2.2.1, s1.2.2 ++ s2.2.2)

/-- Connection-session state as set up by `init`.  The source stores the
constructor's host name in `this.hostname`, but `connect` reads `this.host`, a
property no line of the source ever assigns; JS yields `undefined` for it, so the
field is `none` throughout. -/
structure Sess where
  port : Nat
  hostname : Buf
  host : Option Buf
  buffer : Buf
  callbacks : List Request
  handle : Bool
deriving DecidableEq, Repr

/-- `init(port, hostname)`; `x || default` treats a missing argument, `0` and the
empty string as falsy. -/
def init (port : Option Nat) (hostname : Option Buf) : Sess :=
  { port := match port with
      | some p => if p = 0 then 11211 else p
      | none => 11211
  , hostname := match hostname with
      | some h => if h = [] then toBuf "127.0.0.1" else h
      | none => toBuf "127.0.0.1"
  , host := none
  , buffer := []
  , callbacks := []
  , handle := false }

/-- The argument pair the source passes to `net.createConnection`. -/
structure ConnectCall where
  port : Nat
  host : Option Buf
deriving DecidableEq, Repr

/-- The transport-opening part of `connect`: if a handle already exists it returns
with no new transport; otherwise it opens a transport to `(this.port, this.host)`. -/
def connect (s : Sess) : Sess × Option ConnectCall :=
  if s.handle then (s, none)
  else ({ s with handle := true }, some ⟨s.port, s.host⟩)

/-- The source's `end` handler loop: shift each queued request in turn and fail it
with 'CONNECTION_CLOSED'. -/
def drainClosed : List Request → List Comp
  | [] => []
  | r :: rest => (r.rid, some (toBuf "CONNECTION_CLOSED"), none) :: drainClosed rest

/-- The source's `end` handler: drain the queue, then drop the transport reference. -/
def onEnd (s : Sess) : Sess × List Comp :=
  ({ s with callbacks := [], handle := false }, drainClosed s.callbacks)

/-- The source's `timeout` handler: fail only the oldest queued request with
'TIMEOUT', then emit the session-level 'timeout' event; the transport handle is
not touched.  The third component lists the emitted event names. -/
def onTimeout (s : Sess) : Sess × List Comp × List Buf :=
  match s.callbacks with
  | [] => (s, [], [toBuf "timeout"])
  | r :: rest =>
    ({ s with callbacks := rest }, [(r.rid, some (toBuf "TIMEOUT"), none)], [toBuf "timeout"])

/-- `pat` occurs in `s` at index `i`. -/
def OccAt (s pat : Buf) (i : Nat) : Prop := pat <+: s.drop i

/-- None of the four error tokens occurs anywhere in `s`. -/
def tokenFree (s : Buf) : Prop := ∀ p ∈ ERRORS, firstIdx s p = none

instance (s : Buf) : Decidable (tokenFree s) := by
  unfold tokenFree
  infer_instance

/-- A well-formed single-line reply frame (status lines and `VERSION` lines):
one terminator-free line followed by the terminator, no error token anywhere. -/
def GoodLine (F : Buf) : Prop :=
  ∃ line, F = line ++ CRLF ∧ firstIdx F CRLF = some line.length ∧ tokenFree F

/-- A well-formed get reply frame: the miss frame `END\r\n`, or a full
`VALUE <key> <flags> <bytes>\r\n<data>\r\nEND\r\n` whose first line holds no early
terminator, whose first `END` occurrence is the trailer, whose declared byte
length (field 3 of the split header) parses to the payload length, and which
holds no error token. -/
def GoodGet (F : Buf) : Prop :=
  F = toBuf "END" ++ CRLF ∨
  ∃ header v,
    F = header ++ CRLF ++ v ++ CRLF ++ toBuf "END" ++ CRLF ∧
    (toBuf "VALUE") <+: header ∧
    firstIdx F CRLF = some header.length ∧
    firstIdx F (toBuf "END") = some (header.length + CRLF_LENGTH + v.length + CRLF_LENGTH) ∧
    parseIntJsOpt ((splitOnSpace (header ++ CRLF)).get? 3) = JNum.num (v.length : Int) ∧
    tokenFree F

/-- A server reply frame well-formed for the given expected shape. -/
def GoodFrame : QType → Buf → Prop
  | .get, F => GoodGet F
  | .simple, F => GoodLine F
  | .version, F => GoodLine F

/-- The value a frame parses to when handled on its own. -/
def frameValue (t : QType) (F : Buf) : Option Buf := (dispatchType t F).value

/-- The leftover a parse loop may stop on: empty, or any token-free residue when
no request is queued, or a proper truncation of a frame good for the head
request's shape. -/
def LeftoverOk (q : List Request) (p : Buf) : Prop :=
  p = [] ∨ (q = [] ∧ tokenFree p) ∨
  (∃ r rs F m, q = r :: rs ∧ GoodFrame r.rtype F ∧ m < F.length ∧ p = F.take m)

/-- Residue state across data events: the unconsumed buffer is empty or a proper
truncation of the next expected frame. -/
def PfxSt (p : Buf) (frames : List Buf) : Prop :=
  p = [] ∨ ∃ G Ls m, frames = G :: Ls ∧ m < G.length ∧ p = G.take m

/-! ## Occurrence theory for `firstIdx` (JS `indexOf`) -/


lemma isPfx_iff {l₁ l₂ : Buf} : l₁.isPrefixOf l₂ = true ↔ l₁ <+: l₂ :=
  List.isPrefixOf_iff_prefix

lemma firstIdx_some_occ : ∀ {s pat : Buf} {i : Nat}, firstIdx s pat = some i → OccAt s pat i := by
  intro s
  induction s with
  | nil =>
    intro pat i h
    rw [firstIdx] at h
    by_cases hp : pat.isPrefixOf ([] : Buf)
    · simp [hp] at h
      subst h
      exact isPfx_iff.1 hp
    · simp [hp] at h
  | cons c rest ih =>
    intro pat i h
    rw [firstIdx] at h
    by_cases hp : pat.isPrefixOf (c :: rest)
    · simp [hp] at h
      subst h
      exact isPfx_iff.1 hp
    · simp [hp] at h
      obtain ⟨i', hi', rfl⟩ := h
      exact ih hi'

lemma firstIdx_some_min : ∀ {s pat : Buf} {i j : Nat}, firstIdx s pat = some i →
    OccAt s pat j → i ≤ j := by
  intro s
  induction s with
  | nil =>
    intro pat i j h _
    rw [firstIdx] at h
    by_cases hp : pat.isPrefixOf ([] : Buf)
    · simp [hp] at h
      omega
    · simp [hp] at h
  | cons c rest ih =>
    intro pat i j h hocc
    rw [firstIdx] at h
    by_cases hp : pat.isPrefixOf (c :: rest)
    · simp [hp] at h
      omega
    · simp [hp] at h
      obtain ⟨i', hi', rfl⟩ := h
      match j with
      | 0 => exact absurd (isPfx_iff.2 hocc) hp
      | j' + 1 =>
        have : OccAt rest pat j' := hocc
        have := ih hi' this
        omega

lemma firstIdx_none_no_occ : ∀ {s pat : Buf} {j : Nat}, firstIdx s pat = none →
    ¬ OccAt s pat j := by
  intro s
  induction s with
  | nil =>
    intro pat j h hocc
    rw [firstIdx] at h
    by_cases hp : pat.isPrefixOf ([] : Buf)
    · simp [hp] at h
    · rw [OccAt, List.drop_nil] at hocc
      exact hp (isPfx_iff.2 hocc)
  | cons c rest ih =>
    intro pat j h hocc
    rw [firstIdx] at h
    by_cases hp : pat.isPrefixOf (c :: rest)
    · simp [hp] at h
    · simp [hp] at h
      match j with
      | 0 => exact hp (isPfx_iff.2 hocc)
      | j' + 1 => exact ih h hocc

lemma firstIdx_eq_some_of : ∀ {s pat : Buf} {i : Nat}, OccAt s pat i →
    (∀ j, j < i → ¬ OccAt s pat j) → firstIdx s pat = some i := by
  intro s
  induction s with
  | nil =>
    intro pat i hocc hmin
    have hp : pat <+: ([] : Buf) := by
      rw [OccAt, List.drop_nil] at hocc
      exact hocc
    have h0 : OccAt ([] : Buf) pat 0 := by
      rw [OccAt, List.drop_nil]
      exact hp
    have hi : i = 0 := by
      by_contra hne
      exact hmin 0 (Nat.pos_of_ne_zero hne) h0
    subst hi
    rw [firstIdx]
    simp [isPfx_iff.2 hp]
  | cons c rest ih =>
    intro pat i hocc hmin
    rw [firstIdx]
    by_cases hp : pat.isPrefixOf (c :: rest)
    · have h0 : OccAt (c :: rest) pat 0 := by
        rw [OccAt, List.drop_zero]
        exact isPfx_iff.1 hp
      have : i = 0 := by
        by_contra hne
        exact hmin 0 (Nat.pos_of_ne_zero hne) h0
      simp [hp, this]
    · simp [hp]
      match i with
      | 0 => exact absurd (isPfx_iff.2 hocc) hp
      | i' + 1 =>
        refine ⟨i', ih hocc ?_, rfl⟩
        intro j hj hoccj
        exact hmin (j + 1) (by omega) hoccj

lemma occAt_bound {s pat : Buf} {i : Nat} (hp : pat ≠ []) (h : OccAt s pat i) :
    i + pat.length ≤ s.length := by
  have h1 : pat.length ≤ (s.drop i).length := h.length_le
  rw [List.length_drop] at h1
  rcases le_or_lt i s.length with hle | hlt
  · omega
  · exfalso
    have : s.drop i = [] := List.drop_eq_nil_of_le (Nat.le_of_lt hlt)
    rw [OccAt, this] at h
    exact hp (List.prefix_nil.mp h)

lemma occAt_append_left {a b pat : Buf} {i : Nat} (h : OccAt a pat i) :
    OccAt (a ++ b) pat i := by
  rcases le_or_lt i a.length with hle | hlt
  · rw [OccAt, List.drop_append_of_le_length hle]
    exact h.trans (List.prefix_append _ _)
  · have : a.drop i = [] := List.drop_eq_nil_of_le (Nat.le_of_lt hlt)
    rw [OccAt, this] at h
    have : pat = [] := List.prefix_nil.mp h
    subst this
    exact List.nil_prefix

lemma occAt_append_elim {a b pat : Buf} {i : Nat} (h : OccAt (a ++ b) pat i)
    (hfit : i + pat.length ≤ a.length) : OccAt a pat i := by
  rw [OccAt, List.drop_append_of_le_length (by omega)] at h
  exact List.prefix_of_prefix_length_le h (List.prefix_append _ _)
    (by rw [List.length_drop]; omega)

lemma occAt_append_right_elim {a b pat : Buf} {i : Nat} (h : OccAt (a ++ b) pat i)
    (hge : a.length ≤ i) : OccAt b pat (i - a.length) := by
  rw [OccAt] at h ⊢
  have hi : i = a.length + (i - a.length) := by omega
  rw [hi, ← List.drop_drop, List.drop_left] at h
  exact h

lemma occAt_append_right {a b pat : Buf} {j : Nat} (h : OccAt b pat j) :
    OccAt (a ++ b) pat (a.length + j) := by
  rw [OccAt]
  rw [← List.drop_drop, List.drop_left]
  exact h

lemma occAt_take_elim {s pat : Buf} {m i : Nat} (h : OccAt (s.take m) pat i) :
    OccAt s pat i := by
  rw [OccAt, List.drop_take] at h
  obtain ⟨t, ht⟩ := h
  exact ⟨t ++ (s.drop i).drop (m - i), by rw [← List.append_assoc, ht, List.take_append_drop]⟩

lemma occAt_take {s pat : Buf} {m i : Nat} (h : OccAt s pat i)
    (hfit : i + pat.length ≤ m) : OccAt (s.take m) pat i := by
  rw [OccAt, List.drop_take]
  rw [OccAt, List.prefix_iff_eq_take] at h
  rw [List.prefix_iff_eq_take, List.take_take, Nat.min_eq_left (by omega)]
  exact h

lemma mem_of_getLastOpt : ∀ {l : Buf} {c : Char}, l.getLast? = some c → c ∈ l := by
  intro l
  induction l with
  | nil => intro c h; simp at h
  | cons x xs ih =>
    intro c h
    cases xs with
    | nil =>
      simp [List.getLast?] at h
      simp [h]
    | cons y ys =>
      rw [List.getLast?_cons_cons] at h
      exact List.mem_cons_of_mem _ (ih h)

lemma occAt_span_mem {a b pat : Buf} {i : Nat} (h : OccAt (a ++ b) pat i)
    (h1 : i < a.length) (h2 : a.length < i + pat.length)
    (hlast : a.getLast? = some '\n') : '\n' ∈ pat := by
  rw [OccAt, List.drop_append_of_le_length (by omega)] at h
  have hdp : a.drop i <+: pat :=
    List.prefix_of_prefix_length_le (List.prefix_append _ _) h
      (by rw [List.length_drop]; omega)
  have hne : a.drop i ≠ [] := by
    intro hnil
    have := congrArg List.length hnil
    rw [List.length_drop] at this
    simp at this
    omega
  have hl : (a.drop i).getLast? = some '\n' := by
    have hsplit := List.take_append_drop i a
    have hor := @List.getLast?_append Char (a.take i) (a.drop i)
    rw [hsplit, hlast] at hor
    cases hg : (a.drop i).getLast? with
    | none => exact absurd (List.getLast?_eq_none_iff.mp hg) hne
    | some z =>
      rw [hg] at hor
      simpa using hor.symm
  exact hdp.subset (mem_of_getLastOpt hl)

/-! ## Token freedom -/


lemma tokenFree_no_occ {s : Buf} (h : tokenFree s) :
    ∀ p ∈ ERRORS, ∀ j, ¬ OccAt s p j := fun p hp _ => firstIdx_none_no_occ (h p hp)

lemma tokenFree_of_no_occ {s : Buf} (h : ∀ p ∈ ERRORS, ∀ j, ¬ OccAt s p j) :
    tokenFree s := by
  intro p hp
  cases hf : firstIdx s p with
  | none => rfl
  | some i => exact absurd (firstIdx_some_occ hf) (h p hp i)

lemma tokens_nonnil : ∀ p ∈ ERRORS, p ≠ [] := by decide

lemma tokens_noNL : ∀ p ∈ ERRORS, '\n' ∉ p := by decide

lemma tokenFree_nil : tokenFree [] := by
  intro p hp
  have hne := tokens_nonnil p hp
  cases hf : firstIdx [] p with
  | none => rfl
  | some i =>
    have := firstIdx_some_occ hf
    rw [OccAt] at this
    exact absurd (List.prefix_nil.mp (by simpa using this)) hne

lemma tokenFree_take {s : Buf} (h : tokenFree s) (m : Nat) : tokenFree (s.take m) := by
  refine tokenFree_of_no_occ (fun p hp j hocc => ?_)
  exact tokenFree_no_occ h p hp j (occAt_take_elim hocc)

lemma tokenFree_append {a b : Buf} (hlast : a.getLast? = some '\n')
    (ha : tokenFree a) (hb : tokenFree b) : tokenFree (a ++ b) := by
  refine tokenFree_of_no_occ (fun p hp i hocc => ?_)
  have hne := tokens_nonnil p hp
  rcases le_or_lt (i + p.length) a.length with hfit | hbig
  · exact tokenFree_no_occ ha p hp i (occAt_append_elim hocc hfit)
  · rcases le_or_lt a.length i with hge | hlt
    · exact tokenFree_no_occ hb p hp (i - a.length) (occAt_append_right_elim hocc hge)
    · exact tokens_noNL p hp (occAt_span_mem hocc hlt hbig hlast)

/-! ## `jsIndexOf` bridge lemmas -/

lemma jsIndexOf_eq_neg_iff {s p : Buf} : jsIndexOf s p = -1 ↔ firstIdx s p = none := by
  rw [jsIndexOf]
  cases h : firstIdx s p with
  | none => simp
  | some i => simp

lemma jsIndexOf_of_some {s p : Buf} {i : Nat} (h : firstIdx s p = some i) :
    jsIndexOf s p = (i : Int) := by rw [jsIndexOf, h]

lemma errors_any_false {s : Buf} (h : tokenFree s) :
    (ERRORS.any fun item => decide (jsIndexOf s item > -1)) = false := by
  rw [List.any_eq_false]
  intro p hp
  simp only [decide_eq_true_eq, not_lt]
  rw [jsIndexOf, h p hp]

/-! ## Small bridging lemmas -/

lemma jsSubstr_nat (s : Buf) (a b : Nat) :
    jsSubstr s (a : Int) (b : Int) = (s.drop a).take b := by
  unfold jsSubstr
  have h1 : ¬ ((a : Int) < 0) := by omega
  simp [h1]

lemma jsSubstr_nat_sub (s : Buf) (a b c : Nat) :
    jsSubstr s (a : Int) ((b : Int) - (c : Int)) = (s.drop a).take (b - c) := by
  unfold jsSubstr
  have h1 : ¬ ((a : Int) < 0) := by omega
  have h2 : ((b : Int) - (c : Int)).toNat = b - c := by omega
  simp [h1, h2]

lemma jsSubstrEnd_nat (s : Buf) (a : Nat) : jsSubstrEnd s (a : Int) = s.drop a := by
  unfold jsSubstrEnd
  have h1 : ¬ ((a : Int) < 0) := by omega
  simp [h1]

lemma firstIdx_append_l {a b pat : Buf} {i : Nat} (hp : pat ≠ [])
    (h : firstIdx a pat = some i) : firstIdx (a ++ b) pat = some i := by
  apply firstIdx_eq_some_of (occAt_append_left (firstIdx_some_occ h))
  intro j hj hocc
  have hbound := occAt_bound hp (firstIdx_some_occ h)
  have hja : OccAt a pat j := occAt_append_elim hocc (by omega)
  have := firstIdx_some_min h hja
  omega

lemma firstIdx_bound {s pat : Buf} {i : Nat} (hp : pat ≠ []) (h : firstIdx s pat = some i) :
    i + pat.length ≤ s.length := occAt_bound hp (firstIdx_some_occ h)

/-- No occurrence of `pat` survives in a truncation shorter than where the first
occurrence ends. -/
lemma firstIdx_take_none {F pat : Buf} {i m : Nat} (hp : pat ≠ [])
    (hidx : firstIdx F pat = some i) (hm : m < i + pat.length) :
    firstIdx (F.take m) pat = none := by
  cases hf : firstIdx (F.take m) pat with
  | none => rfl
  | some j =>
    exfalso
    have hocc := firstIdx_some_occ hf
    have hb := occAt_bound hp hocc
    rw [List.length_take] at hb
    have hoccF := occAt_take_elim hocc
    have := firstIdx_some_min hidx hoccF
    have hmin : min m F.length ≤ m := Nat.min_le_left _ _
    omega

/-- When `pat` occurs nowhere in `F`, it occurs nowhere in `F.take m`. -/
lemma firstIdx_take_none_of_none {F pat : Buf} {m : Nat}
    (hidx : firstIdx F pat = none) : firstIdx (F.take m) pat = none := by
  cases hf : firstIdx (F.take m) pat with
  | none => rfl
  | some j => exact absurd (occAt_take_elim (firstIdx_some_occ hf)) (firstIdx_none_no_occ hidx)

lemma crlf_ne_nil : CRLF ≠ [] := by decide

/-! ## Well-formed reply frames -/


lemma goodFrame_tokenFree : ∀ {t F}, GoodFrame t F → tokenFree F := by
  intro t F h
  cases t with
  | get =>
    rcases h with h | ⟨header, v, _, _, _, _, _, htf⟩
    · subst h
      unfold tokenFree
      decide
    · exact htf
  | simple => obtain ⟨line, _, _, htf⟩ := h; exact htf
  | version => obtain ⟨line, _, _, htf⟩ := h; exact htf

lemma goodFrame_getLast : ∀ {t F}, GoodFrame t F → F.getLast? = some '\n' := by
  intro t F h
  have hcr : ∀ x : Buf, (x ++ CRLF).getLast? = some '\n' := by
    intro x
    rw [List.getLast?_append]
    rfl
  cases t with
  | get =>
    rcases h with h | ⟨header, v, hF, _⟩
    · subst h; decide
    · rw [hF]; exact hcr _
  | simple => obtain ⟨line, hF, _, _⟩ := h; rw [hF]; exact hcr _
  | version => obtain ⟨line, hF, _, _⟩ := h; rw [hF]; exact hcr _

lemma goodFrame_ne_nil : ∀ {t F}, GoodFrame t F → F ≠ [] := by
  intro t F h hnil
  have := goodFrame_getLast h
  rw [hnil] at this
  simp at this

lemma goodFrames_flatten_tokenFree :
    ∀ {frames : List Buf} {matched : List Request} {lo : Buf},
      List.Forall₂ (fun F r => GoodFrame r.rtype F) frames matched → tokenFree lo →
      tokenFree (frames.flatten ++ lo) := by
  intro frames matched lo h hlo
  induction h with
  | nil => simpa using hlo
  | @cons F r frames' matched' hFr htail ih =>
    have : (F :: frames').flatten ++ lo = F ++ (frames'.flatten ++ lo) := by
      simp [List.flatten_cons, List.append_assoc]
    rw [this]
    exact tokenFree_append (goodFrame_getLast hFr) (goodFrame_tokenFree hFr) ih

/-! ## Parsing a good frame at the head of the buffer -/

lemma jsSubstr_zero_nat (s : Buf) (b : Nat) : jsSubstr s 0 (b : Int) = s.take b := by
  unfold jsSubstr
  simp

lemma readLine_of_idx {s : Buf} {i : Nat} (hidx : firstIdx s CRLF = some i) :
    readLine s = s.take i := by
  unfold readLine
  rw [hidx]
  show jsSubstr s 0 (i : Int) = s.take i
  rw [jsSubstr_zero_nat]

/-- Value of `handleVersion`'s `substr(8, pos - 8)` on a buffer starting with
`line ++ CRLF`. -/
lemma version_substr {line z : Buf} :
    jsSubstr (line ++ CRLF ++ z) 8 ((line.length : Int) - 8) = line.drop 8 := by
  have h8 : (8 : Int) = ((8 : Nat) : Int) := rfl
  rw [h8, jsSubstr_nat_sub]
  rcases le_or_lt 8 line.length with h8le | h8lt
  · have hdrop : (line ++ CRLF ++ z).drop 8 = line.drop 8 ++ (CRLF ++ z) := by
      rw [List.append_assoc, List.drop_append_of_le_length h8le]
    rw [hdrop]
    have hlen : (line.drop 8).length = line.length - 8 := List.length_drop ..
    rw [← hlen]
    exact List.take_left ..
  · have hz : line.length - 8 = 0 := by omega
    have hz2 : line.drop 8 = [] := List.drop_eq_nil_of_le (by omega)
    rw [hz, hz2, List.take_zero]

lemma parse_good_line {F Z : Buf} (hG : GoodLine F) :
    ∀ t, t = QType.simple ∨ t = QType.version →
    tokenFree (F ++ Z) →
    getHandleResult (F ++ Z) (some t) = some ⟨frameValue t F, .num (F.length : Int), none⟩ := by
  obtain ⟨line, hF, hidx, htfF⟩ := hG
  intro t ht htf
  have hidx2 : firstIdx (F ++ Z) CRLF = some line.length := firstIdx_append_l crlf_ne_nil hidx
  have hjs : jsIndexOf (F ++ Z) CRLF = (line.length : Int) := jsIndexOf_of_some hidx2
  have hno : ¬ (jsIndexOf (F ++ Z) CRLF = -1) := by rw [hjs]; omega
  have hlenF : F.length = line.length + 2 := by
    rw [hF, List.length_append]; rfl
  have htake : (F ++ Z).take line.length = line := by
    rw [hF, List.append_assoc]
    exact List.take_left ..
  have htakeF : F.take line.length = line := by
    rw [hF]
    exact List.take_left ..
  have hrl : readLine (F ++ Z) = line := by rw [readLine_of_idx hidx2, htake]
  have hrlF : readLine F = line := by rw [readLine_of_idx hidx, htakeF]
  have hposn : JNum.num ((line.length : Int) + (CRLF_LENGTH : Int)) =
      JNum.num (F.length : Int) := by
    rw [hlenF]
    have : (CRLF_LENGTH : Int) = 2 := rfl
    rw [this]
    push_cast
    ring_nf
  have hsimple : handleSimple (F ++ Z) = ⟨some line, .num (F.length : Int), none⟩ := by
    rw [handleSimple, hrl, hposn]
  have hversion : handleVersion (F ++ Z) = ⟨some (line.drop 8), .num (F.length : Int), none⟩ := by
    rw [handleVersion, hjs]
    have hv : jsSubstr (F ++ Z) 8 ((line.length : Int) - 8) = line.drop 8 := by
      rw [hF]
      exact version_substr
    rw [hv, hposn]
  rcases ht with rfl | rfl
  · rw [getHandleResult, if_neg hno, errors_any_false htf]
    simp only [Bool.false_eq_true, if_false, dispatchType]
    rw [hsimple]
    have hfv : frameValue QType.simple F = some line := by
      rw [frameValue]
      simp only [dispatchType]
      rw [handleSimple, hrlF]
    rw [hfv]
  · rw [getHandleResult, if_neg hno, errors_any_false htf]
    simp only [Bool.false_eq_true, if_false, dispatchType]
    rw [hversion]
    have hfv : frameValue QType.version F = some (line.drop 8) := by
      rw [frameValue]
      simp only [dispatchType]
      rw [handleVersion, jsIndexOf_of_some hidx]
      have hv : jsSubstr F 8 ((line.length : Int) - 8) = line.drop 8 := by
        have hFz : F = line ++ CRLF ++ ([] : Buf) := by rw [hF, List.append_nil]
        rw [hFz]
        exact version_substr
      rw [hv]
    rw [hfv]

lemma end_ne_nil : toBuf "END" ≠ [] := by decide

lemma handleGet_miss (Z : Buf) :
    handleGet (toBuf "END" ++ CRLF ++ Z) = ⟨none, .num 5, none⟩ := by
  have hocc : firstIdx (toBuf "END" ++ CRLF ++ Z) (toBuf "END") = some 0 := by
    apply firstIdx_eq_some_of
    · rw [OccAt, List.drop_zero, List.append_assoc]
      exact List.prefix_append ..
    · intro j hj
      omega
  simp only [handleGet, jsIndexOf_of_some hocc]
  norm_num
  rfl

lemma handleGet_hit {F header v : Buf}
    (hF : F = header ++ CRLF ++ v ++ CRLF ++ toBuf "END" ++ CRLF)
    (hVal : toBuf "VALUE" <+: header)
    (hidx : firstIdx F CRLF = some header.length)
    (hEnd : firstIdx F (toBuf "END") =
      some (header.length + CRLF_LENGTH + v.length + CRLF_LENGTH)) (Z : Buf) :
    handleGet (F ++ Z) = ⟨some v, .num (F.length : Int), none⟩ := by
  have hcl : CRLF_LENGTH = 2 := rfl
  have hidx2 : firstIdx (F ++ Z) CRLF = some header.length :=
    firstIdx_append_l crlf_ne_nil hidx
  have hEnd2 : firstIdx (F ++ Z) (toBuf "END") =
      some (header.length + CRLF_LENGTH + v.length + CRLF_LENGTH) :=
    firstIdx_append_l end_ne_nil hEnd
  have hval0 : firstIdx (F ++ Z) (toBuf "VALUE") = some 0 := by
    apply firstIdx_eq_some_of
    · rw [OccAt, List.drop_zero]
      refine hVal.trans ?_
      rw [hF]
      simp only [List.append_assoc]
      exact List.prefix_append ..
    · intro j hj
      omega
  have hsplit : F ++ Z = (header ++ CRLF) ++ (v ++ (CRLF ++ (toBuf "END" ++ (CRLF ++ Z)))) := by
    rw [hF]
    simp [List.append_assoc]
  have hlenHC : (header ++ CRLF).length = header.length + 2 := by
    rw [List.length_append]; rfl
  have hdrop : (F ++ Z).drop (header.length + 2) = v ++ (CRLF ++ (toBuf "END" ++ (CRLF ++ Z))) := by
    rw [hsplit]
    exact List.drop_left' hlenHC
  have hFl : F.length = header.length + 2 + v.length + 2 + 3 + 2 := by
    have hCR : CRLF.length = 2 := rfl
    have hEND3 : (toBuf "END").length = 3 := rfl
    rw [hF]
    simp only [List.length_append, hCR, hEND3]
  simp only [handleGet]
  rw [jsIndexOf_of_some hEnd2, jsIndexOf_of_some hidx2, jsIndexOf_of_some hval0]
  rw [if_neg (by rw [hcl]; omega : ¬ ((((header.length + CRLF_LENGTH + v.length +
    CRLF_LENGTH : Nat)) : Int) = 0))]
  rw [if_pos (by constructor <;> [rfl; (rw [hcl]; omega)] :
    (((0 : Nat) : Int) = 0 ∧ (((header.length + CRLF_LENGTH + v.length +
      CRLF_LENGTH : Nat)) : Int) > -1))]
  have e2 : ((((header.length + CRLF_LENGTH + v.length + CRLF_LENGTH : Nat)) : Int) -
      ((header.length : Int) + (CRLF_LENGTH : Int)) - (CRLF_LENGTH : Int)) =
      ((v.length : Nat) : Int) := by
    push_cast
    omega
  have e1 : (header.length : Int) + (CRLF_LENGTH : Int) = ((header.length + 2 : Nat) : Int) := by
    rw [hcl]
    push_cast
    omega
  rw [e2, e1, jsSubstr_nat, hdrop, List.take_left]
  congr 1
  rw [hFl, hcl]
  push_cast
  ring_nf

lemma parse_good_get {F Z : Buf} (hG : GoodGet F) (htf : tokenFree (F ++ Z)) :
    getHandleResult (F ++ Z) (some QType.get) =
      some ⟨frameValue QType.get F, .num (F.length : Int), none⟩ := by
  rcases hG with hmiss | ⟨header, v, hF, hVal, hidx, hEnd, hfield, htfF⟩
  · have hidxF : firstIdx (toBuf "END" ++ CRLF) CRLF = some 3 := by decide
    have hidx2 : firstIdx (F ++ Z) CRLF = some 3 := by
      rw [hmiss]
      exact firstIdx_append_l crlf_ne_nil hidxF
    have hno : ¬ (jsIndexOf (F ++ Z) CRLF = -1) := by
      rw [jsIndexOf_of_some hidx2]; omega
    rw [getHandleResult, if_neg hno, errors_any_false htf]
    simp only [Bool.false_eq_true, if_false, dispatchType]
    have hget : handleGet (F ++ Z) = ⟨none, .num 5, none⟩ := by
      rw [hmiss]; exact handleGet_miss Z
    rw [hget]
    have hfv : frameValue QType.get F = none := by
      rw [hmiss]; decide
    have hl5 : (F.length : Int) = 5 := by rw [hmiss]; rfl
    rw [hfv, hl5]
  · have hidx2 : firstIdx (F ++ Z) CRLF = some header.length :=
      firstIdx_append_l crlf_ne_nil hidx
    have hno : ¬ (jsIndexOf (F ++ Z) CRLF = -1) := by
      rw [jsIndexOf_of_some hidx2]; omega
    rw [getHandleResult, if_neg hno, errors_any_false htf]
    simp only [Bool.false_eq_true, if_false, dispatchType]
    rw [handleGet_hit hF hVal hidx hEnd Z]
    have hfv : frameValue QType.get F = some v := by
      rw [frameValue]
      simp only [dispatchType]
      have hFz : F = F ++ ([] : Buf) := by rw [List.append_nil]
      rw [hFz, handleGet_hit hF hVal hidx hEnd ([] : Buf)]
    rw [hfv]

/-- Parsing a good frame at the head of the buffer: the handler consumes exactly
the frame and produces the frame's own value, with no error component. -/
lemma parse_good {t : QType} {F Z : Buf} (hG : GoodFrame t F) (htf : tokenFree (F ++ Z)) :
    getHandleResult (F ++ Z) (some t) = some ⟨frameValue t F, .num (F.length : Int), none⟩ := by
  cases t with
  | get => exact parse_good_get hG htf
  | simple => exact parse_good_line hG QType.simple (Or.inl rfl) htf
  | version => exact parse_good_line hG QType.version (Or.inr rfl) htf

/-! ## NeedMoreData behaviour -/

lemma gHR_no_crlf {b : Buf} {t : Option QType} (h : jsIndexOf b CRLF = -1) :
    getHandleResult b t = none := by
  rw [getHandleResult.eq_def, if_pos h]

lemma gHR_none_queue {b : Buf} (htf : tokenFree b) : getHandleResult b none = none := by
  by_cases hc : jsIndexOf b CRLF = -1
  · rw [getHandleResult.eq_def, if_pos hc]
  · rw [getHandleResult.eq_def, if_neg hc, errors_any_false htf]
    simp

lemma gHR_none_queue_some {b : Buf} {r : HR} (h : getHandleResult b none = some r) :
    r = handleError b := by
  rw [getHandleResult.eq_def] at h
  by_cases hc : jsIndexOf b CRLF = -1
  · rw [if_pos hc] at h
    exact absurd h (by simp)
  · rw [if_neg hc] at h
    by_cases he : (ERRORS.any fun item => decide (jsIndexOf b item > -1)) = true
    · rw [if_pos he] at h
      exact (Option.some_inj.mp h).symm
    · rw [if_neg he] at h
      simp at h

/-- A proper truncation of a good line-shaped frame holds no complete terminator. -/
lemma leftover_line_none {F : Buf} {m : Nat} (hG : GoodLine F) (hm : m < F.length) :
    firstIdx (F.take m) CRLF = none := by
  obtain ⟨line, hF, hidx, _⟩ := hG
  have hlen : F.length = line.length + 2 := by rw [hF, List.length_append]; rfl
  exact firstIdx_take_none crlf_ne_nil hidx (by
    have : CRLF.length = 2 := rfl
    omega)

lemma leftover_needs_more {t : QType} {F : Buf} {m : Nat}
    (hG : GoodFrame t F) (hm : m < F.length) :
    getHandleResult (F.take m) (some t) = none ∨
    ∃ r, getHandleResult (F.take m) (some t) = some r ∧
      r.pos.gtNat (F.take m).length = true := by
  have hplen : (F.take m).length = m := by
    rw [List.length_take]
    omega
  cases t with
  | simple =>
    left
    exact gHR_no_crlf (jsIndexOf_eq_neg_iff.mpr (leftover_line_none hG hm))
  | version =>
    left
    exact gHR_no_crlf (jsIndexOf_eq_neg_iff.mpr (leftover_line_none hG hm))
  | get =>
    rcases hG with hmiss | ⟨header, v, hF, hVal, hidx, hEnd, hfield, htfF⟩
    · left
      have hidxF : firstIdx F CRLF = some 3 := by rw [hmiss]; decide
      have h5 : F.length = 5 := by rw [hmiss]; rfl
      refine gHR_no_crlf (jsIndexOf_eq_neg_iff.mpr ?_)
      exact firstIdx_take_none crlf_ne_nil hidxF (by
        have : CRLF.length = 2 := rfl
        omega)
    · have hcl : CRLF_LENGTH = 2 := rfl
      have hcll : CRLF.length = 2 := rfl
      have hhl : 5 ≤ header.length := hVal.length_le
      have hlenF : F.length = header.length + 2 + v.length + 2 + 3 + 2 := by
        have hEND3 : (toBuf "END").length = 3 := rfl
        rw [hF]
        simp only [List.length_append, hcll, hEND3]
      rcases le_or_lt (header.length + 2) m with hge | hlt
      · -- the header line is complete: the get handler computes a consumed
        -- position at least the full frame length, which exceeds the truncation
        right
        have hidxp : firstIdx (F.take m) CRLF = some header.length := by
          apply firstIdx_eq_some_of
          · exact occAt_take (firstIdx_some_occ hidx) (by rw [hcll]; omega)
          · intro j hj hocc
            have := firstIdx_some_min hidx (occAt_take_elim hocc)
            omega
        have htfp : tokenFree (F.take m) := tokenFree_take htfF m
        have hno : ¬ (jsIndexOf (F.take m) CRLF = -1) := by
          rw [jsIndexOf_of_some hidxp]; omega
        have hgHR : getHandleResult (F.take m) (some QType.get) =
            some (handleGet (F.take m)) := by
          rw [getHandleResult, if_neg hno, errors_any_false htfp]
          simp only [Bool.false_eq_true, if_false, dispatchType]
        refine ⟨handleGet (F.take m), hgHR, ?_⟩
        have hvp : firstIdx (F.take m) (toBuf "VALUE") = some 0 := by
          apply firstIdx_eq_some_of
          · apply occAt_take _ (by
              have hv5 : (toBuf "VALUE").length = 5 := rfl
              rw [hv5]
              omega)
            rw [OccAt, List.drop_zero]
            refine hVal.trans ?_
            rw [hF]
            simp only [List.append_assoc]
            exact List.prefix_append ..
          · intro j hj
            omega
        cases hep : firstIdx (F.take m) (toBuf "END") with
        | some j =>
          have hjT : header.length + CRLF_LENGTH + v.length + CRLF_LENGTH ≤ j :=
            firstIdx_some_min hEnd (occAt_take_elim (firstIdx_some_occ hep))
          simp only [handleGet, jsIndexOf_of_some hep, jsIndexOf_of_some hidxp,
            jsIndexOf_of_some hvp]
          rw [if_neg (by omega : ¬ (((j : Nat) : Int) = 0))]
          rw [if_pos (⟨rfl, by omega⟩ :
            (((0 : Nat) : Int) = 0 ∧ ((j : Nat) : Int) > -1))]
          simp only [JNum.gtNat, decide_eq_true_eq, hplen, hcl]
          push_cast
          omega
        | none =>
          have hje : jsIndexOf (F.take m) (toBuf "END") = -1 :=
            jsIndexOf_eq_neg_iff.mpr hep
          have hfieldp : (splitOnSpace (jsSubstr (F.take m) 0
              ((header.length : Int) + (CRLF_LENGTH : Int)))).get? 3 =
              (splitOnSpace (header ++ CRLF)).get? 3 := by
            have e1 : (header.length : Int) + (CRLF_LENGTH : Int) =
                ((header.length + 2 : Nat) : Int) := by
              rw [hcl]; push_cast; omega
            rw [e1, jsSubstr_zero_nat, List.take_take,
              Nat.min_eq_left hge]
            have hHC : F.take (header.length + 2) = header ++ CRLF := by
              have hsp : F = (header ++ CRLF) ++
                  (v ++ CRLF ++ toBuf "END" ++ CRLF) := by
                rw [hF]
                simp [List.append_assoc]
              rw [hsp]
              exact List.take_left' (by rw [List.length_append]; rfl)
            rw [hHC]
          simp only [handleGet, hje, jsIndexOf_of_some hidxp, jsIndexOf_of_some hvp]
          rw [if_neg (by omega : ¬ ((-1 : Int) = 0))]
          rw [if_neg (by
            intro hcon
            exact absurd hcon.2 (by omega) :
            ¬ ((((0 : Nat) : Int) = 0) ∧ (-1 : Int) > -1))]
          rw [hfieldp, hfield]
          simp only [jaddInt, JNum.gtNat, decide_eq_true_eq, hplen, hcl]
          push_cast
          omega
      · -- header line still truncated: no terminator is visible yet
        left
        exact gHR_no_crlf (jsIndexOf_eq_neg_iff.mpr
          (firstIdx_take_none crlf_ne_nil hidx (by rw [hcll]; omega)))


lemma go_stop {b : Buf} {q : List Request}
    (h : b.length = 0 ∨ getHandleResult b (q.head?.map Request.rtype) = none ∨
      ∃ r, getHandleResult b (q.head?.map Request.rtype) = some r ∧
        r.pos.gtNat b.length = true) :
    ∀ fuel, handleDataGo fuel b q = (b, q, []) := by
  intro fuel
  cases fuel with
  | zero => rfl
  | succ f =>
    by_cases h0 : b.length = 0
    · simp [handleDataGo, h0]
    · rcases h with h0' | hn | ⟨r, hr, hgt⟩
      · exact absurd h0' h0
      · simp [handleDataGo, h0, hn]
      · simp [handleDataGo, h0, hr, hgt]

lemma leftover_skip {q : List Request} {p : Buf} (h : LeftoverOk q p) :
    ∀ fuel, handleDataGo fuel p q = (p, q, []) := by
  rcases h with rfl | ⟨rfl, htf⟩ | ⟨r, rs, F, m, rfl, hG, hm, rfl⟩
  · exact go_stop (Or.inl rfl)
  · exact go_stop (Or.inr (Or.inl (gHR_none_queue htf)))
  · rcases leftover_needs_more hG hm with hnone | ⟨r', hr', hgt⟩
    · exact go_stop (Or.inr (Or.inl hnone))
    · exact go_stop (Or.inr (Or.inr ⟨r', hr', hgt⟩))

/-! ## The parse loop: termination measure and stability -/

lemma jsSubstringFrom_length_le (b : Buf) (j : JNum) :
    (jsSubstringFrom b j).length ≤ b.length := by
  cases j with
  | nan => exact le_refl _
  | num n =>
    simp only [jsSubstringFrom, List.length_drop]
    omega

/-- Every non-exiting iteration of the `handleData` loop strictly decreases
`buffer.length + callbacks.length`: either a request is dequeued, or (with an
empty queue) the error path consumes at least one terminator's worth of bytes. -/
lemma step_dec {b : Buf} {q : List Request} {r : HR}
    (_hb : b.length ≠ 0)
    (hr : getHandleResult b (q.head?.map Request.rtype) = some r)
    (hgt : r.pos.gtNat b.length = false) :
    (jsSubstringFrom b r.pos).length + q.tail.length < b.length + q.length := by
  cases q with
  | cons c rest =>
    have := jsSubstringFrom_length_le b r.pos
    simp only [List.tail_cons, List.length_cons]
    omega
  | nil =>
    have hre : r = handleError b := gHR_none_queue_some (by simpa using hr)
    subst hre
    simp only [handleError, JNum.gtNat, decide_eq_false_iff_not, not_lt] at hgt
    simp only [handleError, jsSubstringFrom, List.length_drop, List.tail_nil,
      List.length_nil]
    have hcl : (CRLF_LENGTH : Int) = 2 := rfl
    rw [hcl] at hgt
    omega

lemma go_stable : ∀ (n : Nat), ∀ (b : Buf) (q : List Request) (fuel : Nat),
    b.length + q.length = n → n ≤ fuel →
    handleDataGo fuel b q = handleDataGo n b q := by
  intro n
  induction n using Nat.strong_induction_on with
  | _ n ih =>
    intro b q fuel hn hf
    by_cases h0 : b.length = 0
    · rw [go_stop (Or.inl h0) fuel, go_stop (Or.inl h0) n]
    cases hr : getHandleResult b (q.head?.map Request.rtype) with
    | none =>
      rw [go_stop (Or.inr (Or.inl hr)) fuel, go_stop (Or.inr (Or.inl hr)) n]
    | some r =>
      by_cases hgt : r.pos.gtNat b.length = true
      · rw [go_stop (Or.inr (Or.inr ⟨r, hr, hgt⟩)) fuel,
          go_stop (Or.inr (Or.inr ⟨r, hr, hgt⟩)) n]
      · have hgt' : r.pos.gtNat b.length = false := by simpa using hgt
        have hdec := step_dec h0 hr hgt'
        have hb1 : 1 ≤ b.length := Nat.pos_of_ne_zero h0
        obtain ⟨n', rfl⟩ : ∃ n', n = n' + 1 := ⟨n - 1, by omega⟩
        obtain ⟨f', rfl⟩ : ∃ f', fuel = f' + 1 := ⟨fuel - 1, by omega⟩
        cases q with
        | nil =>
          simp only [List.tail_nil, List.length_nil] at hdec
          simp only [handleDataGo, if_neg h0, hr, hgt', Bool.false_eq_true,
            if_false]
          have hm : (jsSubstringFrom b r.pos).length + ([] : List Request).length ≤ n' := by
            simp only [List.length_nil] at hn ⊢
            omega
          have e1 := ih ((jsSubstringFrom b r.pos).length + ([] : List Request).length)
            (by simp only [List.length_nil] at hn ⊢; omega)
            (jsSubstringFrom b r.pos) [] f' rfl (by omega)
          have e2 := ih ((jsSubstringFrom b r.pos).length + ([] : List Request).length)
            (by simp only [List.length_nil] at hn ⊢; omega)
            (jsSubstringFrom b r.pos) [] n' rfl (by omega)
          rw [e1, e2]
        | cons c rest =>
          simp only [List.tail_cons, List.length_cons] at hdec
          simp only [handleDataGo, if_neg h0, hr, hgt', Bool.false_eq_true,
            if_false]
          have hn' : b.length + (c :: rest).length = n' + 1 := hn
          have hmle : (jsSubstringFrom b r.pos).length + rest.length ≤ n' := by
            simp only [List.length_cons] at hn'
            omega
          have e1 := ih ((jsSubstringFrom b r.pos).length + rest.length)
            (by omega) (jsSubstringFrom b r.pos) rest f' rfl (by omega)
          have e2 := ih ((jsSubstringFrom b r.pos).length + rest.length)
            (by omega) (jsSubstringFrom b r.pos) rest n' rfl (by omega)
          rw [e1, e2]

/-- Any fuel at least `buffer.length + callbacks.length` computes `handleData`:
the parse loop terminates within that many iterations. -/
lemma handleDataGo_eq_handleData {fuel : Nat} {b : Buf} {q : List Request}
    (h : b.length + q.length ≤ fuel) : handleDataGo fuel b q = handleData b q := by
  rw [handleData]
  exact go_stable (b.length + q.length) b q fuel rfl h

/-- One successful iteration of the loop on a non-empty queue. -/
lemma handleData_step_cons {b : Buf} {c : Request} {rest : List Request} {r : HR}
    (hb : b.length ≠ 0)
    (hr : getHandleResult b (some c.rtype) = some r)
    (hgt : r.pos.gtNat b.length = false) :
    handleData b (c :: rest) =
      ((handleData (jsSubstringFrom b r.pos) rest).1,
       (handleData (jsSubstringFrom b r.pos) rest).2.1,
       (c.rid, r.error, r.value) :: (handleData (jsSubstringFrom b r.pos) rest).2.2) := by
  rw [handleData]
  obtain ⟨k, hk⟩ : ∃ k, b.length + (c :: rest).length = k + 1 :=
    ⟨b.length + rest.length, by simp only [List.length_cons]; omega⟩
  rw [hk]
  have hhead : ((c :: rest).head?.map Request.rtype) = some c.rtype := rfl
  simp only [handleDataGo, if_neg hb, hhead, hr, hgt, Bool.false_eq_true, if_false]
  have hrec : handleDataGo k (jsSubstringFrom b r.pos) rest =
      handleData (jsSubstringFrom b r.pos) rest := by
    apply handleDataGo_eq_handleData
    have := jsSubstringFrom_length_le b r.pos
    simp only [List.length_cons] at hk
    omega
  rw [hrec]

lemma leftoverOk_tokenFree {q : List Request} {p : Buf} (h : LeftoverOk q p) :
    tokenFree p := by
  rcases h with rfl | ⟨rfl, htf⟩ | ⟨r, rs, F, m, rfl, hG, hm, rfl⟩
  · exact tokenFree_nil
  · exact htf
  · exact tokenFree_take (goodFrame_tokenFree hG) m

/-- The central correctness lemma of the parse loop: with the receive buffer
holding the well-formed reply frames for the first `frames.length` queued
requests followed by an acceptable leftover, one pass of `handleData` fires
exactly one completion per frame, head-first in queue order, each carrying its
own frame's value with a null error, consumes exactly the frames, and keeps the
leftover and the remaining queue. -/
lemma handleData_frames :
    ∀ {frames : List Buf} {matched : List Request} {restQ : List Request} {lo : Buf},
      List.Forall₂ (fun F r => GoodFrame r.rtype F) frames matched →
      LeftoverOk restQ lo →
      handleData (frames.flatten ++ lo) (matched ++ restQ) =
        (lo, restQ,
          List.zipWith (fun F r => (r.rid, (none : Option Buf), frameValue r.rtype F))
            frames matched) := by
  intro frames matched restQ lo h hlo
  induction h with
  | nil =>
    simp only [List.flatten_nil, List.nil_append]
    rw [handleData]
    exact leftover_skip hlo _
  | @cons F r frames' matched' hFr htail ih =>
    have hbuf : (F :: frames').flatten ++ lo = F ++ (frames'.flatten ++ lo) := by
      rw [List.flatten_cons, List.append_assoc]
    have htfZ : tokenFree (F ++ (frames'.flatten ++ lo)) := by
      have h1 := goodFrames_flatten_tokenFree (List.Forall₂.cons hFr htail)
        (leftoverOk_tokenFree hlo)
      rwa [List.flatten_cons, List.append_assoc] at h1
    have hparse := parse_good hFr htfZ
    have hFne : F.length ≠ 0 := by
      have := goodFrame_ne_nil hFr
      intro hc
      exact this (List.length_eq_zero.mp hc)
    have hblen : (F ++ (frames'.flatten ++ lo)).length =
        F.length + (frames'.flatten ++ lo).length := List.length_append ..
    have hb : (F ++ (frames'.flatten ++ lo)).length ≠ 0 := by
      rw [hblen]; omega
    have hgt : JNum.gtNat (.num (F.length : Int)) (F ++ (frames'.flatten ++ lo)).length
        = false := by
      simp only [JNum.gtNat, decide_eq_false_iff_not, not_lt, hblen]
      omega
    have hdrop : jsSubstringFrom (F ++ (frames'.flatten ++ lo)) (.num (F.length : Int)) =
        frames'.flatten ++ lo := by
      simp only [jsSubstringFrom, Int.toNat_natCast]
      exact List.drop_left ..
    rw [hbuf, List.cons_append]
    rw [handleData_step_cons hb hparse hgt]
    rw [hdrop, ih]
    rfl

/-! ## Chunked feeding -/

/-- Any prefix of a flattened frame list splits into whole leading frames plus a
(possibly empty) proper truncation of the next frame. -/
lemma flatten_split : ∀ (L : List Buf) (P : Buf), P <+: L.flatten →
    ∃ k p, k ≤ L.length ∧ P = (L.take k).flatten ++ p ∧
      (p = [] ∨ ∃ (hk : k < L.length), ∃ m, m < L[k].length ∧ p = L[k].take m) := by
  intro L
  induction L with
  | nil =>
    intro P hP
    refine ⟨0, [], by omega, ?_, Or.inl rfl⟩
    have : P = [] := List.prefix_nil.mp (by simpa using hP)
    simp [this]
  | cons G L' ih =>
    intro P hP
    rw [List.flatten_cons] at hP
    rcases le_or_lt G.length P.length with hle | hlt
    · have hGP : G <+: P :=
        List.prefix_of_prefix_length_le (List.prefix_append ..) hP hle
      obtain ⟨P', rfl⟩ := hGP
      have hP' : P' <+: L'.flatten := by
        rw [← List.prefix_append_right_inj G]
        exact hP
      obtain ⟨k, p, hk, heq, hcase⟩ := ih P' hP'
      refine ⟨k + 1, p, by simpa using hk, ?_, ?_⟩
      · rw [List.take_succ_cons, List.flatten_cons, List.append_assoc, ← heq]
      · rcases hcase with rfl | ⟨hklt, m, hm, hp⟩
        · exact Or.inl rfl
        · refine Or.inr ⟨by simpa using hklt, m, ?_, ?_⟩
          · rw [List.getElem_cons_succ]
            exact hm
          · rw [List.getElem_cons_succ]
            exact hp
    · have hPG : P <+: G :=
        List.prefix_of_prefix_length_le hP (List.prefix_append ..) (by omega)
      refine ⟨0, P, by omega, by simp, Or.inr ⟨by simp, P.length, by simpa using hlt, ?_⟩⟩
      rw [List.getElem_cons_zero]
      exact List.prefix_iff_eq_take.mp hPG


lemma good_flatten_nil {frames : List Buf} {matched : List Request}
    (h : List.Forall₂ (fun F r => GoodFrame r.rtype F) frames matched)
    (hnil : frames.flatten = []) : frames = [] := by
  cases h with
  | nil => rfl
  | @cons F r frames' matched' hFr _ =>
    exfalso
    rw [List.flatten_cons] at hnil
    exact goodFrame_ne_nil hFr (List.append_eq_nil.mp hnil).1

/-- Canonical run: feeding any chunking of the frame stream completes every
request with its own frame's value, in order, and ends with an empty buffer and
queue. -/
lemma feedChunks_run :
    ∀ (chunks : List Buf) (framesRem : List Buf) (matchedRem : List Request) (p : Buf),
      List.Forall₂ (fun F r => GoodFrame r.rtype F) framesRem matchedRem →
      PfxSt p framesRem →
      p ++ chunks.flatten = framesRem.flatten →
      feedChunks p matchedRem chunks =
        ([], [],
          List.zipWith (fun F r => (r.rid, (none : Option Buf), frameValue r.rtype F))
            framesRem matchedRem) := by
  intro chunks
  induction chunks with
  | nil =>
    intro framesRem matchedRem p h hpfx hinv
    rw [List.flatten_nil, List.append_nil] at hinv
    rcases hpfx with rfl | ⟨G, Ls, m, rfl, hm, hp⟩
    · have hfr : framesRem = [] := good_flatten_nil h hinv.symm
      subst hfr
      have hm : matchedRem = [] := by
        have := h.length_eq
        simpa [List.length_eq_zero] using this.symm
      subst hm
      rfl
    · exfalso
      have h1 : p.length = m := by
        rw [hp, List.length_take]
        omega
      have h2 : G.length ≤ p.length := by
        rw [hinv, List.flatten_cons, List.length_append]
        omega
      omega
  | cons c cs ih =>
    intro framesRem matchedRem p h hpfx hinv
    have hPfull : (p ++ c) <+: framesRem.flatten :=
      ⟨cs.flatten, by
        have hfc : (c :: cs).flatten = c ++ cs.flatten := List.flatten_cons
        rw [List.append_assoc, ← hfc]
        exact hinv⟩
    obtain ⟨k, p', hk, heq, hcase⟩ := flatten_split _ _ hPfull
    have hlen : framesRem.length = matchedRem.length := h.length_eq
    have hlo : LeftoverOk (matchedRem.drop k) p' := by
      rcases hcase with rfl | ⟨hklt, m, hm, hp'⟩
      · exact Or.inl rfl
      · right; right
        have hklt' : k < matchedRem.length := by omega
        have hdropm : matchedRem.drop k = matchedRem[k] :: matchedRem.drop (k + 1) :=
          List.drop_eq_getElem_cons hklt'
        have hGk : GoodFrame (matchedRem[k]).rtype (framesRem[k]) := by
          have hiff := List.forall₂_iff_get.mp h
          have := hiff.2 k hklt hklt'
          simpa [List.get_eq_getElem] using this
        exact ⟨matchedRem[k], matchedRem.drop (k + 1), framesRem[k], m,
          hdropm, hGk, hm, hp'⟩
    have hsplitQ : matchedRem = matchedRem.take k ++ matchedRem.drop k :=
      (List.take_append_drop k matchedRem).symm
    have hF2take : List.Forall₂ (fun F r => GoodFrame r.rtype F)
        (framesRem.take k) (matchedRem.take k) := List.forall₂_take k h
    have hstep : handleData (p ++ c) matchedRem =
        (p', matchedRem.drop k,
          List.zipWith (fun F r => (r.rid, (none : Option Buf), frameValue r.rtype F))
            (framesRem.take k) (matchedRem.take k)) := by
      conv_lhs => rw [heq, hsplitQ]
      exact handleData_frames hF2take hlo
    have hinv' : p' ++ cs.flatten = (framesRem.drop k).flatten := by
      apply @List.append_cancel_left Char ((framesRem.take k).flatten) _ _
      have e1 : (framesRem.take k).flatten ++ (p' ++ cs.flatten) =
          (p ++ c) ++ cs.flatten := by
        rw [heq, List.append_assoc]
      have hfc : (c :: cs).flatten = c ++ cs.flatten := List.flatten_cons
      rw [e1, List.append_assoc, ← hfc, hinv,
        ← List.flatten_append, List.take_append_drop]
    have hpfx' : PfxSt p' (framesRem.drop k) := by
      rcases hcase with rfl | ⟨hklt, m, hm, hp'⟩
      · exact Or.inl rfl
      · exact Or.inr ⟨framesRem[k], framesRem.drop (k + 1), m,
          List.drop_eq_getElem_cons hklt, hm, hp'⟩
    have hrec := ih (framesRem.drop k) (matchedRem.drop k) p'
      (List.forall₂_drop k h) hpfx' hinv'
    show (let s1 := handleData (p ++ c) matchedRem
      let s2 := feedChunks s1.1 s1.2.1 cs
      (s2.1, s2.2.1, s1.2.2 ++ s2.2.2)) =
      ([], [], List.zipWith _ framesRem matchedRem)
    rw [hstep]
    simp only []
    rw [hrec]
    have hzip : List.zipWith
        (fun F r => (r.rid, (none : Option Buf), frameValue r.rtype F))
          (framesRem.take k) (matchedRem.take k) ++
        List.zipWith (fun F r => (r.rid, (none : Option Buf), frameValue r.rtype F))
          (framesRem.drop k) (matchedRem.drop k) =
        List.zipWith (fun F r => (r.rid, (none : Option Buf), frameValue r.rtype F))
          framesRem matchedRem := by
      rw [← List.zipWith_append _ _ _ _ _ (by
        rw [List.length_take, List.length_take, hlen])]
      rw [List.take_append_drop, List.take_append_drop]
    rw [hzip]

/-! ## Session handler lemma -/

lemma drainClosed_map : ∀ q : List Request,
    drainClosed q = q.map (fun r => (r.rid, some (toBuf "CONNECTION_CLOSED"),
      (none : Option Buf))) := by
  intro q
  induction q with
  | nil => rfl
  | cons r rest ih => rw [drainClosed, ih, List.map_cons]

/-! ## Claims -/

/-- C1: the claim says a get reply whose VALUE header declares a byte length is
framed by that declared length even when the payload contains the text 'END'.
The code does the opposite: on `VALUE k 0 5\r\nxENDx\r\nEND\r\n` (declared length
5, payload "xENDx", full frame 25 bytes) `handleGet` scans to the first 'END'
occurrence — inside the payload — and returns the empty value consuming only 19
bytes, instead of the declared 5-byte span "xENDx" and the 25-byte frame. -/
theorem c1_declared_length_not_preferred :
    handleGet (toBuf "VALUE k 0 5\r\nxENDx\r\nEND\r\n") =
      ⟨some [], JNum.num 19, none⟩ ∧
    (toBuf "xENDx").length = 5 ∧
    (toBuf "VALUE k 0 5\r\nxENDx\r\nEND\r\n").length = 25 ∧
    (some ([] : Buf)) ≠ some (toBuf "xENDx") := by
  refine ⟨by decide, by decide, by decide, by decide⟩

/-- C2 counterexample: the claim says the Error payload is the text of the error
line and the consumed count is that line's length plus the terminator.  On the
buffer `STORED\r\nERROR\r\n` (error prefix present, but not in the first line)
the parser returns the FIRST line "STORED" as the error payload and consumes 8
bytes, not the error line "ERROR" with 7 bytes. -/
theorem c2_error_line_counterexample :
    getHandleResult (toBuf "STORED\r\nERROR\r\n") (some QType.simple) =
      some ⟨none, JNum.num 8, some (toBuf "STORED")⟩ ∧
    some (toBuf "STORED") ≠ some (toBuf "ERROR") ∧
    JNum.num 8 ≠ JNum.num 7 := by
  refine ⟨by decide, by decide, by decide⟩

/-- C2 amended: for every buffer containing a terminator in which one of the four
error prefixes occurs anywhere, the parser returns an Error result — regardless
of the expected shape, taking priority over shape dispatch — whose payload is
the text of the buffer's FIRST line (equal to the error line whenever the error
prefix occurs in the first line) and whose consumed byte count is the first
line's length plus the terminator length. -/
theorem c2_error_first_line (b : Buf) (t : Option QType)
    (hcr : ¬ (jsIndexOf b CRLF = -1))
    (herr : ∃ p ∈ ERRORS, jsIndexOf b p > -1) :
    getHandleResult b t =
      some ⟨none, JNum.num (((readLine b).length : Int) + (CRLF_LENGTH : Int)),
        some (readLine b)⟩ := by
  have hany : (ERRORS.any fun item => decide (jsIndexOf b item > -1)) = true := by
    rw [List.any_eq_true]
    obtain ⟨p, hp, hgt⟩ := herr
    exact ⟨p, hp, by simpa using hgt⟩
  rw [getHandleResult.eq_def, if_neg hcr, if_pos hany]
  rfl

/-- Witness for C2 amended at the buffer `ERROR\r\n` with an empty queue. -/
theorem c2_error_first_line_witness :
    (¬ (jsIndexOf (toBuf "ERROR\r\n") CRLF = -1)) ∧
    (∃ p ∈ ERRORS, jsIndexOf (toBuf "ERROR\r\n") p > -1) ∧
    getHandleResult (toBuf "ERROR\r\n") none =
      some ⟨none,
        JNum.num (((readLine (toBuf "ERROR\r\n")).length : Int) + (CRLF_LENGTH : Int)),
        some (readLine (toBuf "ERROR\r\n"))⟩ :=
  ⟨by decide, by decide, c2_error_first_line _ _ (by decide) (by decide)⟩

/-- C3: with N well-formed reply frames for the N queued requests arriving as one
merged data event, the parse loop completes every request with exactly one
reply — its own frame's value, null error — in the order the requests were
queued (the head of the FIFO queue always takes the next frame), leaving an
empty buffer and queue. -/
theorem c3_pipelined_fifo (frames : List Buf) (reqs : List Request)
    (h : List.Forall₂ (fun F r => GoodFrame r.rtype F) frames reqs) :
    handleData frames.flatten reqs =
      ([], [],
        List.zipWith (fun F r => (r.rid, (none : Option Buf), frameValue r.rtype F))
          frames reqs) := by
  have h1 := @handleData_frames frames reqs [] [] h (Or.inl rfl)
  simpa using h1

/-- Witness for C3: three pipelined replies (a store status, a get hit, a get
miss) in one merged buffer resolve requests 0, 1, 2 in order. -/
theorem c3_pipelined_fifo_witness :
    List.Forall₂ (fun F r => GoodFrame r.rtype F)
      [toBuf "STORED\r\n", toBuf "VALUE k 0 5\r\nhello\r\nEND\r\n", toBuf "END\r\n"]
      ([⟨QType.simple, 0⟩, ⟨QType.get, 1⟩, ⟨QType.get, 2⟩] : List Request) ∧
    handleData
      (List.flatten
        [toBuf "STORED\r\n", toBuf "VALUE k 0 5\r\nhello\r\nEND\r\n", toBuf "END\r\n"])
      ([⟨QType.simple, 0⟩, ⟨QType.get, 1⟩, ⟨QType.get, 2⟩] : List Request) =
      ([], [], [(0, none, some (toBuf "STORED")), (1, none, some (toBuf "hello")),
        (2, none, none)]) := by
  have hf2 : List.Forall₂ (fun F r => GoodFrame r.rtype F)
      [toBuf "STORED\r\n", toBuf "VALUE k 0 5\r\nhello\r\nEND\r\n", toBuf "END\r\n"]
      ([⟨QType.simple, 0⟩, ⟨QType.get, 1⟩, ⟨QType.get, 2⟩] : List Request) := by
    refine List.Forall₂.cons ?_ (List.Forall₂.cons ?_
      (List.Forall₂.cons ?_ List.Forall₂.nil))
    · exact ⟨toBuf "STORED", by decide, by decide, by decide⟩
    · exact Or.inr ⟨toBuf "VALUE k 0 5", toBuf "hello", by decide, by decide,
        by decide, by decide, by decide, by decide⟩
    · exact Or.inl (by decide)
  refine ⟨hf2, ?_⟩
  rw [c3_pipelined_fifo _ _ hf2]
  decide

/-- C4 counterexample: the same response byte stream (a `STORED` status reply
followed by a `SERVER_ERROR` reply) fed as two chunks versus one contiguous
buffer yields different results: chunked, the first request resolves with
"STORED"; contiguous, the error scan sees the later `SERVER_ERROR` token and
rejects the first request with payload "STORED". -/
theorem c4_chunk_counterexample :
    feedChunks [] [⟨QType.simple, 0⟩, ⟨QType.simple, 1⟩]
        [toBuf "STORED\r\n", toBuf "SERVER_ERROR oom\r\n"] ≠
      feedChunks [] [⟨QType.simple, 0⟩, ⟨QType.simple, 1⟩]
        [toBuf "STORED\r\n" ++ toBuf "SERVER_ERROR oom\r\n"] := by
  decide

/-- C4 amended: chunk-boundary independence holds for response streams that are
concatenations of well-formed, error-token-free frames matching the queued
request shapes: every chunking of such a stream yields exactly the same
sequence of parse results (and the same final state) as the contiguous buffer. -/
theorem c4_chunk_independence_good (frames : List Buf) (reqs : List Request)
    (chunks : List Buf)
    (h : List.Forall₂ (fun F r => GoodFrame r.rtype F) frames reqs)
    (hflat : chunks.flatten = frames.flatten) :
    feedChunks [] reqs chunks = feedChunks [] reqs [frames.flatten] := by
  have h1 := feedChunks_run chunks frames reqs [] h (Or.inl rfl) (by simpa using hflat)
  have h2 := feedChunks_run [frames.flatten] frames reqs [] h (Or.inl rfl) (by simp)
  rw [h1, h2]

/-- Witness for C4 amended: a status frame split mid-line versus contiguous. -/
theorem c4_chunk_independence_witness :
    List.Forall₂ (fun F r => GoodFrame r.rtype F)
      [toBuf "STORED\r\n"] ([⟨QType.simple, 0⟩] : List Request) ∧
    (List.flatten [toBuf "STO", toBuf "RED\r\n"]) =
      List.flatten [toBuf "STORED\r\n"] ∧
    feedChunks [] [⟨QType.simple, 0⟩] [toBuf "STO", toBuf "RED\r\n"] =
      feedChunks [] [⟨QType.simple, 0⟩] [List.flatten [toBuf "STORED\r\n"]] := by
  have hf2 : List.Forall₂ (fun F r => GoodFrame r.rtype F)
      [toBuf "STORED\r\n"] ([⟨QType.simple, 0⟩] : List Request) :=
    List.Forall₂.cons ⟨toBuf "STORED", by decide, by decide, by decide⟩
      List.Forall₂.nil
  exact ⟨hf2, by decide,
    c4_chunk_independence_good _ _ [toBuf "STO", toBuf "RED\r\n"] hf2 (by decide)⟩

/-- C5: the parser never consumes bytes beyond what is proven complete: on a
buffer with no line terminator the loop returns immediately (NeedMoreData), and
whenever the computed consumed-length exceeds the buffer length the loop stops
with the buffer unchanged and no completion handle fired. -/
theorem c5_never_overconsume (b : Buf) (q : List Request) :
    (jsIndexOf b CRLF = -1 → handleData b q = (b, q, [])) ∧
    (∀ r, getHandleResult b (q.head?.map Request.rtype) = some r →
      r.pos.gtNat b.length = true → handleData b q = (b, q, [])) := by
  constructor
  · intro hcr
    rw [handleData]
    exact go_stop (Or.inr (Or.inl (gHR_no_crlf hcr))) _
  · intro r hr hgt
    rw [handleData]
    exact go_stop (Or.inr (Or.inr ⟨r, hr, hgt⟩)) _

/-- Witness for C5: a terminator-free buffer, and a get reply whose declared
length reaches past the current buffer (computed pos 25 > 13). -/
theorem c5_never_overconsume_witness :
    handleData (toBuf "ab") [] = (toBuf "ab", [], []) ∧
    (getHandleResult (toBuf "VALUE k 0 5\r\n")
        (([⟨QType.get, 7⟩] : List Request).head?.map Request.rtype) =
      some (handleGet (toBuf "VALUE k 0 5\r\n"))) ∧
    handleData (toBuf "VALUE k 0 5\r\n") [⟨QType.get, 7⟩] =
      (toBuf "VALUE k 0 5\r\n", [⟨QType.get, 7⟩], []) :=
  ⟨(c5_never_overconsume _ _).1 (by decide), by decide,
    (c5_never_overconsume _ _).2 (handleGet (toBuf "VALUE k 0 5\r\n"))
      (by decide) (by decide)⟩

/-- C6 counterexample: the claim (from the spec's example) says the reply
`VALUE k 0 5\r\nhello\r\nEND\r\n` consumes exactly 26 bytes; the code consumes
25 — which is the actual frame length. -/
theorem c6_consumed_counterexample :
    handleGet (toBuf "VALUE k 0 5\r\nhello\r\nEND\r\n") =
      ⟨some (toBuf "hello"), JNum.num 25, none⟩ ∧
    (25 : Int) ≠ 26 ∧
    (toBuf "VALUE k 0 5\r\nhello\r\nEND\r\n").length = 25 := by
  refine ⟨by decide, by decide, by decide⟩

/-- C6 amended: the reply `VALUE k 0 5\r\nhello\r\nEND\r\n` resolves the pending
get with "hello" and consumes exactly 25 bytes (the full frame); any reply
beginning with `END` resolves with null and consumes 3 bytes plus the
terminator length (5 in total). -/
theorem c6_get_example_amended (rest : Buf) :
    handleGet (toBuf "VALUE k 0 5\r\nhello\r\nEND\r\n") =
      ⟨some (toBuf "hello"), JNum.num 25, none⟩ ∧
    handleGet (toBuf "END" ++ rest) = ⟨none, JNum.num 5, none⟩ := by
  constructor
  · decide
  · have h0 : firstIdx (toBuf "END" ++ rest) (toBuf "END") = some 0 := by
      apply firstIdx_eq_some_of
      · rw [OccAt, List.drop_zero]
        exact List.prefix_append ..
      · intro j hj
        omega
    simp only [handleGet, jsIndexOf_of_some h0]
    rw [if_pos (show ((0 : Nat) : Int) = 0 from rfl)]
    rfl

/-- Witness for C6 amended at `rest = "\r\n"` (the miss frame `END\r\n`). -/
theorem c6_get_example_witness :
    handleGet (toBuf "VALUE k 0 5\r\nhello\r\nEND\r\n") =
      ⟨some (toBuf "hello"), JNum.num 25, none⟩ ∧
    handleGet (toBuf "END" ++ toBuf "\r\n") = ⟨none, JNum.num 5, none⟩ :=
  ⟨(c6_get_example_amended (toBuf "\r\n")).1, (c6_get_example_amended (toBuf "\r\n")).2⟩

/-- C7: on orderly end-of-stream, every still-queued request is failed with the
'CONNECTION_CLOSED' kind, dequeued oldest-first (the completion list is exactly
the queue in FIFO order), none dropped, and the transport reference is
released. -/
theorem c7_end_drains_fifo (s : Sess) :
    onEnd s = ({ s with callbacks := [], handle := false },
      s.callbacks.map (fun r => (r.rid, some (toBuf "CONNECTION_CLOSED"),
        (none : Option Buf)))) := by
  rw [onEnd, drainClosed_map]

/-- Witness for C7 with 3 queries outstanding. -/
theorem c7_end_drains_fifo_witness :
    onEnd (Sess.mk 11211 (toBuf "127.0.0.1") none []
        [⟨QType.simple, 0⟩, ⟨QType.get, 1⟩, ⟨QType.simple, 2⟩] true) =
      (Sess.mk 11211 (toBuf "127.0.0.1") none [] [] false,
        [(0, some (toBuf "CONNECTION_CLOSED"), none),
         (1, some (toBuf "CONNECTION_CLOSED"), none),
         (2, some (toBuf "CONNECTION_CLOSED"), none)]) := by
  rw [c7_end_drains_fifo]
  decide

/-- C8: a single timeout event fails exactly the oldest queued request with the
'TIMEOUT' kind, leaves every other queued request pending, emits the
session-level 'timeout' notification, and does not touch the transport handle. -/
theorem c8_timeout_oldest_only (s : Sess) (r : Request) (rest : List Request)
    (h : s.callbacks = r :: rest) :
    onTimeout s = ({ s with callbacks := rest },
      [(r.rid, some (toBuf "TIMEOUT"), (none : Option Buf))], [toBuf "timeout"]) ∧
    (onTimeout s).1.handle = s.handle := by
  have h1 : onTimeout s = ({ s with callbacks := rest },
      [(r.rid, some (toBuf "TIMEOUT"), (none : Option Buf))], [toBuf "timeout"]) := by
    simp only [onTimeout, h]
  exact ⟨h1, by rw [h1]⟩

/-- Witness for C8 with 2 queries outstanding: only request 0 fails. -/
theorem c8_timeout_oldest_only_witness :
    onTimeout (Sess.mk 11211 (toBuf "127.0.0.1") none []
        [⟨QType.simple, 0⟩, ⟨QType.get, 1⟩] true) =
      (Sess.mk 11211 (toBuf "127.0.0.1") none [] [⟨QType.get, 1⟩] true,
        [(0, some (toBuf "TIMEOUT"), none)], [toBuf "timeout"]) :=
  (c8_timeout_oldest_only _ ⟨QType.simple, 0⟩ [⟨QType.get, 1⟩] rfl).1

/-- C9: the claim says `connect()` opens the transport to the host and port the
Connection was constructed with.  The code stores the constructor's host name in
`this.hostname` but passes `this.host` — a property never assigned anywhere in
the source, hence JS `undefined` — to `net.createConnection`, so the configured
host name is ignored (the transport library then falls back to localhost).  The
idempotence half of the claim does hold: with a live handle, `connect` returns
without opening a new transport. -/
theorem c9_connect_ignores_hostname :
    (init (some 11211) (some (toBuf "10.0.0.5"))).hostname = toBuf "10.0.0.5" ∧
    (connect (init (some 11211) (some (toBuf "10.0.0.5")))).2 =
      some ⟨11211, none⟩ ∧
    (∀ s : Sess, s.handle = true → connect s = (s, none)) := by
  refine ⟨by decide, by decide, ?_⟩
  intro s hs
  rw [connect, if_pos hs]

/-- Witness for C9's idempotence hypothesis at a connected session. -/
theorem c9_connect_ignores_hostname_witness :
    (Sess.mk 11211 (toBuf "10.0.0.5") none [] [] true).handle = true ∧
    connect (Sess.mk 11211 (toBuf "10.0.0.5") none [] [] true) =
      (Sess.mk 11211 (toBuf "10.0.0.5") none [] [] true, none) :=
  ⟨rfl, c9_connect_ignores_hostname.2.2 _ rfl⟩

/-- C10: the data-handling parse loop terminates: `buffer.length +
callbacks.length` iterations always suffice, so any larger fuel computes the
same result (each iteration either consumes bytes or dequeues a request, and
otherwise the loop exits).  In particular it terminates when a get reply's
header lacks a parseable byte-length field (`pos` is NaN: the buffer is not
trimmed, but the queue shrinks). -/
theorem c10_parse_loop_terminates (fuel : Nat) (b : Buf) (q : List Request)
    (h : b.length + q.length ≤ fuel) :
    handleDataGo fuel b q = handleData b q :=
  handleDataGo_eq_handleData h

/-- Witness for C10 on a get reply whose header has no parseable byte-length
field (`parseInt` yields NaN): the loop still terminates. -/
theorem c10_parse_loop_terminates_witness :
    (toBuf "foo bar\r\n").length + ([⟨QType.get, 0⟩] : List Request).length ≤ 100 ∧
    handleDataGo 100 (toBuf "foo bar\r\n") [⟨QType.get, 0⟩] =
      handleData (toBuf "foo bar\r\n") [⟨QType.get, 0⟩] ∧
    handleData (toBuf "foo bar\r\n") [⟨QType.get, 0⟩] =
      (toBuf "foo bar\r\n", [], [(0, none, some [])]) :=
  ⟨by decide, c10_parse_loop_terminates 100 _ _ (by decide), by decide⟩

end Memcache
